import Mathlib

/-!
Shallow embedding of `docker_dashboard.py` (class `Screen`): the viewport
scroll state machine, the unused paging transition, the health
classification implicit in `Screen.display`, the grid layout, and the
`Screen.doAction` restart dispatch.  Machine integers of the source are
Python arbitrary-precision ints, embedded as `Int`; Python `//` and `%`
are floor division and floor modulus, embedded as `Int.fdiv` / `Int.fmod`.
-/

set_option autoImplicit false

namespace DockerDashboard

/-- Line 6 of the source: `HEALTHY_STATUS = 'healthy'`. -/
def HEALTHY_STATUS : String := "healthy"

/-- Line 7 of the source: `STARTING_STATUS = 'starting'`. -/
def STARTING_STATUS : String := "starting"

/-- `Screen.UP = -1` (line 10). -/
def Screen.UP : Int := -1

/-- `Screen.DOWN = 1` (line 11). -/
def Screen.DOWN : Int := 1

/-- `Screen.LEFT = -3` (line 12). -/
def Screen.LEFT : Int := -3

/-- `Screen.RIGHT = 3` (line 13). -/
def Screen.RIGHT : Int := 3

/-- The mutable scroll/selection fields of `Screen` that the navigation
methods read and write: `top`, `current`, `bottom`, `max_lines`, `page`
(lines 59-63 of `__init__`, refreshed each tick in `input_stream`). -/
structure TickState where
  top : Int
  current : Int
  bottom : Int
  max_lines : Int
  page : Int
deriving Repr, DecidableEq

/-- `Screen.scroll(direction)` (lines 147-184): an ordered list of six
guarded rules; the first matching rule fires, otherwise the method falls
through and the state is unchanged.  `next_line = current + direction`
uses the numeric value of the direction constant. -/
def scroll (direction : Int) (s : TickState) : TickState :=
  let next_line := s.current + direction
  if direction = Screen.UP ∧ (s.top > 0 ∧ s.current = 0) then
    { s with top := s.top + direction }
  else if direction = Screen.UP ∧ (s.top > 0 ∨ s.current > 0) then
    { s with current := next_line }
  else if direction = Screen.DOWN ∧ next_line = s.max_lines ∧
      s.top + s.max_lines < s.bottom then
    { s with top := s.top + direction }
  else if direction = Screen.DOWN ∧ next_line < s.max_lines ∧
      s.top + next_line < s.bottom then
    { s with current := next_line }
  else if direction = Screen.RIGHT ∧ next_line < s.max_lines ∧
      s.top + next_line < s.bottom then
    { s with current := next_line }
  else if direction = Screen.LEFT ∧ s.current ≥ 3 then
    { s with current := next_line }
  else s

/-- The six guard conditions of `Screen.scroll` (lines 154, 159, 165,
170, 176, 182), each negated: when this predicate holds, every `if` of
the method is skipped and the method falls through without assigning
any attribute. -/
def noRuleMatches (direction : Int) (s : TickState) : Prop :=
  ¬(direction = Screen.UP ∧ (s.top > 0 ∧ s.current = 0)) ∧
  ¬(direction = Screen.UP ∧ (s.top > 0 ∨ s.current > 0)) ∧
  ¬(direction = Screen.DOWN ∧ s.current + direction = s.max_lines ∧
      s.top + s.max_lines < s.bottom) ∧
  ¬(direction = Screen.DOWN ∧ s.current + direction < s.max_lines ∧
      s.top + (s.current + direction) < s.bottom) ∧
  ¬(direction = Screen.RIGHT ∧ s.current + direction < s.max_lines ∧
      s.top + (s.current + direction) < s.bottom) ∧
  ¬(direction = Screen.LEFT ∧ s.current ≥ 3)

instance (direction : Int) (s : TickState) : Decidable (noRuleMatches direction s) := by
  unfold noRuleMatches
  infer_instance

/-- `Screen.paging(direction)` (lines 188-207).  `current_page` uses
Python floor division; the `min` adjustment of `current` happens before
(and independently of) the two page-move rules, which only change `top`. -/
def paging (direction : Int) (s : TickState) : TickState :=
  let current_page := Int.fdiv (s.top + s.current) s.max_lines
  let next_page := current_page + direction
  let s1 :=
    if next_page = s.page then
      { s with current := min s.current (Int.fmod s.bottom s.max_lines - 1) }
    else s
  if direction = Screen.UP ∧ current_page > 0 then
    { s1 with top := max 0 (s.top - s.max_lines) }
  else if direction = Screen.DOWN ∧ current_page < s.page then
    { s1 with top := s.top + s.max_lines }
  else s1

/-- One entity of the inventory: a container as `display`/`doAction` see
it — its id, its name, and the health descriptor
`inspect_container(id)['State']['Health']['Status']`, absent when the
`'Health'` key is missing (lines 220-222). -/
structure Container where
  id : String
  name : String
  health : Option String
deriving Repr, DecidableEq

/-- The four health categories of the spec model: the three color
treatments of `display` plus `ABSENT` for a missing descriptor. -/
inductive HealthCategory where
  | UP
  | RESTARTING
  | DOWN
  | ABSENT
deriving Repr, DecidableEq

/-- The health decision of `Screen.display` (lines 221-240), as a
function of the raw descriptor: a missing `'Health'` key takes the
`ABSENT` default, a present descriptor goes through the branch chain
`!= healthy and != starting` → down, `== starting` → restarting,
else → up. -/
def classify (h : Option String) : HealthCategory :=
  match h with
  | none => HealthCategory.ABSENT
  | some hc =>
      if hc ≠ HEALTHY_STATUS ∧ hc ≠ STARTING_STATUS then HealthCategory.DOWN
      else if hc = STARTING_STATUS then HealthCategory.RESTARTING
      else HealthCategory.UP

/-- The curses color pair chosen for the entity at enumeration index
`idx` with health descriptor `hc` (lines 223-239): pair 7 when
`idx == self.current` (the emphasis/selected styling), otherwise pair 1
(down), 3 (starting) or 2 (up) by category. -/
def cellStyle (idx current : Int) (hc : String) : Nat :=
  if hc ≠ HEALTHY_STATUS ∧ hc ≠ STARTING_STATUS then
    (if idx = current then 7 else 1)
  else if hc = STARTING_STATUS then
    (if idx = current then 7 else 3)
  else
    (if idx = current then 7 else 2)

/-- One `addstr` call of the grid: screen row, screen column, the
container name written there, and the curses color pair used. -/
structure Cell where
  row : Int
  col : Int
  text : String
  colorPair : Nat
deriving Repr, DecidableEq

/-- The loop state of `Screen.display` (lines 213-215 and the body of
the `for` loop): the cursor `(i, j)`, the three footer counters, and
the cells written so far, in order. -/
structure DisplayAcc where
  i : Int
  j : Int
  down : Int
  restart : Int
  up : Int
  cells : List Cell
deriving Repr, DecidableEq

/-- One iteration of the `for idx, container in enumerate(...)` body of
`display` (lines 219-244).  A container whose inspect state has no
`'Health'` key matches no branch: nothing is written, no counter moves,
`i` and `j` stay put.  Otherwise one cell is written at `(i, j)` with
the style of `cellStyle`, the matching counter is incremented, then
`i += 1` and the column wrap `if i == 6: j += 22; i = 3` runs. -/
def displayStep (current : Int) (idx : Int) (acc : DisplayAcc) (c : Container) :
    DisplayAcc :=
  match c.health with
  | none => acc
  | some hc =>
      let style := cellStyle idx current hc
      let down1 :=
        if hc ≠ HEALTHY_STATUS ∧ hc ≠ STARTING_STATUS then acc.down + 1 else acc.down
      let restart1 :=
        if ¬(hc ≠ HEALTHY_STATUS ∧ hc ≠ STARTING_STATUS) ∧ hc = STARTING_STATUS then
          acc.restart + 1
        else acc.restart
      let up1 :=
        if ¬(hc ≠ HEALTHY_STATUS ∧ hc ≠ STARTING_STATUS) ∧ hc ≠ STARTING_STATUS then
          acc.up + 1
        else acc.up
      let i1 := acc.i + 1
      let ij : Int × Int := if i1 = 6 then (3, acc.j + 22) else (i1, acc.j)
      { i := ij.1, j := ij.2, down := down1, restart := restart1, up := up1,
        cells := acc.cells ++ [⟨acc.i, acc.j, c.name, style⟩] }

/-- The enumerated `for` loop of `display`, carrying the running
enumeration index `idx`. -/
def displayGo (current : Int) (idx : Int) (acc : DisplayAcc) :
    List Container → DisplayAcc
  | [] => acc
  | c :: rest => displayGo current (idx + 1) (displayStep current idx acc c) rest

/-- The grid-painting part of `Screen.display` (lines 213-244): starts
with `i = 3`, `j = 0`, all counters zero, no cells written. -/
def displayGrid (containers : List Container) (current : Int) : DisplayAcc :=
  displayGo current 0 ⟨3, 0, 0, 0, 0, []⟩ containers

/-- The loop body of `Screen.doAction` (lines 139-145): the accumulator
is the `self.action` string paired with the list of container names a
`docker restart` subprocess has been spawned for, in order. -/
def doActionGo (current : Int) (idx : Int) (acc : String × List String) :
    List Container → String × List String
  | [] => acc
  | c :: rest =>
      doActionGo current (idx + 1)
        (if idx = current then (c.name, acc.2 ++ [c.name]) else acc) rest

/-- `Screen.doAction` (lines 139-145): iterate the enumerated container
list; at each index equal to `self.current`, record the name as the last
action and spawn a restart. -/
def doAction (containers : List Container) (current : Int) (action : String) :
    String × List String :=
  doActionGo current 0 (action, []) containers

/-- The layout formula of the spec's §4.2, with the constants of
`display` (lines 213-214 and 241-244) as the case `R = 3`, `W = 22`:
the n-th rendered entity lands at row `3 + n mod R`,
column `(n div R) * W`. -/
def place (index rows_per_column column_width : Nat) : Nat × Nat :=
  (3 + index % rows_per_column, (index / rows_per_column) * column_width)

/-! ## Basic facts about `scroll` -/

/-- `scroll` never writes `bottom`, `max_lines` or `page`: every rule
assigns only `top` or `current`. -/
theorem scroll_frame (direction : Int) (s : TickState) :
    (scroll direction s).bottom = s.bottom ∧
    (scroll direction s).max_lines = s.max_lines ∧
    (scroll direction s).page = s.page := by
  simp only [scroll]
  split_ifs <;> exact ⟨rfl, rfl, rfl⟩

/-- C2. For every state satisfying `top ≥ 0`, `current ≥ 0` and
`bottom > 0 → top + current < bottom`, and every direction among
UP, DOWN, LEFT, RIGHT, the state returned by `scroll` satisfies the
same three conditions. -/
theorem C2_scroll_preserves_invariants (s : TickState) (d : Int)
    (hd : d = Screen.UP ∨ d = Screen.DOWN ∨ d = Screen.LEFT ∨ d = Screen.RIGHT)
    (htop : 0 ≤ s.top) (hcur : 0 ≤ s.current)
    (hsum : 0 < s.bottom → s.top + s.current < s.bottom) :
    0 ≤ (scroll d s).top ∧ 0 ≤ (scroll d s).current ∧
      (0 < (scroll d s).bottom →
        (scroll d s).top + (scroll d s).current < (scroll d s).bottom) := by
  simp only [Screen.UP, Screen.DOWN, Screen.LEFT, Screen.RIGHT] at hd
  simp only [scroll, Screen.UP, Screen.DOWN, Screen.LEFT, Screen.RIGHT]
  split_ifs with h1 h2 h3 h4 h5 h6 <;> (try dsimp only) <;> omega

/-- Witness for C2 at a concrete state and direction. -/
theorem C2_scroll_preserves_invariants_witness :
    0 ≤ (scroll Screen.DOWN ⟨0, 0, 5, 7, 0⟩).top ∧
    0 ≤ (scroll Screen.DOWN ⟨0, 0, 5, 7, 0⟩).current ∧
    (0 < (scroll Screen.DOWN ⟨0, 0, 5, 7, 0⟩).bottom →
      (scroll Screen.DOWN ⟨0, 0, 5, 7, 0⟩).top +
        (scroll Screen.DOWN ⟨0, 0, 5, 7, 0⟩).current <
        (scroll Screen.DOWN ⟨0, 0, 5, 7, 0⟩).bottom) :=
  C2_scroll_preserves_invariants ⟨0, 0, 5, 7, 0⟩ Screen.DOWN
    (by decide) (by decide) (by decide) (by decide)

/-- C10. For every state with `max_lines > 0` and
`0 ≤ current < max_lines`, and every direction among UP, DOWN, LEFT,
RIGHT, `scroll` keeps the cursor offset strictly below `max_lines`. -/
theorem C10_scroll_current_lt_max_lines (s : TickState) (d : Int)
    (hd : d = Screen.UP ∨ d = Screen.DOWN ∨ d = Screen.LEFT ∨ d = Screen.RIGHT)
    (hm : 0 < s.max_lines) (hcur : 0 ≤ s.current) (hlt : s.current < s.max_lines) :
    (scroll d s).current < (scroll d s).max_lines := by
  simp only [Screen.UP, Screen.DOWN, Screen.LEFT, Screen.RIGHT] at hd
  simp only [scroll, Screen.UP, Screen.DOWN, Screen.LEFT, Screen.RIGHT]
  split_ifs with h1 h2 h3 h4 h5 h6 <;> (try dsimp only) <;> omega

/-- Witness for C10 at a concrete state and direction. -/
theorem C10_scroll_current_lt_max_lines_witness :
    (scroll Screen.DOWN ⟨0, 0, 10, 7, 1⟩).current <
      (scroll Screen.DOWN ⟨0, 0, 10, 7, 1⟩).max_lines :=
  C10_scroll_current_lt_max_lines ⟨0, 0, 10, 7, 1⟩ Screen.DOWN
    (by decide) (by decide) (by decide) (by decide)

/-- C7. When none of the six guarded rules of `scroll` matches, the
returned state equals the input state, every field included. -/
theorem C7_scroll_noop (d : Int) (s : TickState) (h : noRuleMatches d s) :
    scroll d s = s := by
  obtain ⟨n1, n2, n3, n4, n5, n6⟩ := h
  simp only [Screen.UP, Screen.DOWN, Screen.LEFT, Screen.RIGHT] at n1 n2 n3 n4 n5 n6
  simp only [scroll, Screen.UP, Screen.DOWN, Screen.LEFT, Screen.RIGHT]
  split_ifs <;> rfl

/-- Witness for C7: `UP` with `top = 0` and `current = 0` matches no
rule and the state comes back unchanged. -/
theorem C7_scroll_noop_witness :
    scroll Screen.UP ⟨0, 0, 5, 7, 0⟩ = ⟨0, 0, 5, 7, 0⟩ :=
  C7_scroll_noop Screen.UP ⟨0, 0, 5, 7, 0⟩ (by decide)

/-- C6. In the spec's scenario (10 entities, `max_lines = 7`,
`page = 10 // 7 = 1`), three DOWN inputs from `{top: 0, current: 0}`
yield `{top: 0, current: 3}`: each press fires the scroll-down move
rule, never the overflow rule. -/
theorem C6_three_downs :
    scroll Screen.DOWN (scroll Screen.DOWN (scroll Screen.DOWN ⟨0, 0, 10, 7, 1⟩)) =
      ⟨0, 3, 10, 7, 1⟩ := by
  decide

/-! ## Iterating DOWN (C5) -/

/-- One DOWN input strictly below the last entity: the absolute selected
index `top + current` advances by exactly one (by the overflow rule when
the cursor sits on the last window row, by the move rule otherwise), and
the viewport invariants survive. -/
theorem scroll_DOWN_step (s : TickState) (htop : 0 ≤ s.top) (hcur : 0 ≤ s.current)
    (hlt : s.current < s.max_lines) (hsum : s.top + s.current + 1 < s.bottom) :
    (scroll Screen.DOWN s).top + (scroll Screen.DOWN s).current =
      s.top + s.current + 1 ∧
    0 ≤ (scroll Screen.DOWN s).top ∧ 0 ≤ (scroll Screen.DOWN s).current ∧
    (scroll Screen.DOWN s).current < (scroll Screen.DOWN s).max_lines ∧
    (scroll Screen.DOWN s).top + (scroll Screen.DOWN s).current <
      (scroll Screen.DOWN s).bottom ∧
    (scroll Screen.DOWN s).bottom = s.bottom ∧
    (scroll Screen.DOWN s).max_lines = s.max_lines := by
  simp only [scroll, Screen.UP, Screen.DOWN, Screen.LEFT, Screen.RIGHT]
  split_ifs <;> (try dsimp only) <;> (try simp_all) <;> omega

/-- A DOWN input with the selection already on the last entity matches
no rule: the state is unchanged. -/
theorem scroll_DOWN_fixed (s : TickState) (hlt : s.current < s.max_lines)
    (hsum : s.bottom ≤ s.top + s.current + 1) :
    scroll Screen.DOWN s = s := by
  simp only [scroll, Screen.UP, Screen.DOWN, Screen.LEFT, Screen.RIGHT]
  split_ifs <;> first | rfl | (exfalso; (try simp_all) <;> omega)

/-- Iterating DOWN `n` times from a state whose selection is `n` short
of the last entity lands exactly on the last entity, where a further
DOWN is a no-op. -/
theorem scroll_DOWN_iter (n : Nat) :
    ∀ s : TickState, 0 ≤ s.top → 0 ≤ s.current → s.current < s.max_lines →
      s.top + s.current < s.bottom → s.top + s.current + n = s.bottom - 1 →
      scroll Screen.DOWN ((scroll Screen.DOWN)^[n] s) = (scroll Screen.DOWN)^[n] s ∧
      ((scroll Screen.DOWN)^[n] s).top + ((scroll Screen.DOWN)^[n] s).current =
        s.bottom - 1 := by
  induction n with
  | zero =>
      intro s htop hcur hlt hsum hn
      refine ⟨?_, by simpa using hn⟩
      simpa using scroll_DOWN_fixed s hlt (by omega)
  | succ n ih =>
      intro s htop hcur hlt hsum hn
      have hstep := scroll_DOWN_step s htop hcur hlt (by omega)
      obtain ⟨hs1, hs2, hs3, hs4, hs5, hs6, hs7⟩ := hstep
      have := ih (scroll Screen.DOWN s) hs2 hs3 hs4 hs5 (by omega)
      rw [Function.iterate_succ_apply]
      exact ⟨this.1, by rw [this.2, hs6]⟩

/-- C5. From any state with `bottom > 0` satisfying the viewport
invariants `top ≥ 0`, `0 ≤ current < max_lines`, `top + current <
bottom`, iterating the DOWN transition reaches a state that DOWN leaves
unchanged, and there `top + current = bottom - 1`. -/
theorem C5_down_reaches_last (s : TickState) (hb : 0 < s.bottom)
    (htop : 0 ≤ s.top) (hcur : 0 ≤ s.current) (hlt : s.current < s.max_lines)
    (hsum : s.top + s.current < s.bottom) :
    ∃ n : Nat,
      scroll Screen.DOWN ((scroll Screen.DOWN)^[n] s) = (scroll Screen.DOWN)^[n] s ∧
      ((scroll Screen.DOWN)^[n] s).top + ((scroll Screen.DOWN)^[n] s).current =
        s.bottom - 1 :=
  ⟨(s.bottom - 1 - (s.top + s.current)).toNat,
    scroll_DOWN_iter _ s htop hcur hlt hsum (by omega)⟩

/-- Witness for C5 at a concrete state. -/
theorem C5_down_reaches_last_witness :
    ∃ n : Nat,
      scroll Screen.DOWN ((scroll Screen.DOWN)^[n] (⟨0, 0, 3, 2, 1⟩ : TickState)) =
        (scroll Screen.DOWN)^[n] (⟨0, 0, 3, 2, 1⟩ : TickState) ∧
      ((scroll Screen.DOWN)^[n] (⟨0, 0, 3, 2, 1⟩ : TickState)).top +
        ((scroll Screen.DOWN)^[n] (⟨0, 0, 3, 2, 1⟩ : TickState)).current =
        (⟨0, 0, 3, 2, 1⟩ : TickState).bottom - 1 :=
  C5_down_reaches_last ⟨0, 0, 3, 2, 1⟩ (by decide) (by decide) (by decide)
    (by decide) (by decide)

/-! ## `doAction` and the grid (C1, C3, C4) -/

/-- Once the loop index has passed `self.current`, no later iteration of
`doAction` can match: the accumulator is returned untouched. -/
theorem doActionGo_past (current : Int) (cs : List Container) :
    ∀ (idx : Int) (acc : String × List String), current < idx →
      doActionGo current idx acc cs = acc := by
  induction cs with
  | nil => intro idx acc h; rfl
  | cons c rest ih =>
      intro idx acc h
      simp only [doActionGo]
      rw [if_neg (by omega)]
      exact ih (idx + 1) acc (by omega)

/-- The iteration of `doAction` whose index reaches `self.current` sets
the action to that container's name, spawns exactly one restart for it,
and nothing after it matches again. -/
theorem doActionGo_hit (current : Int) (c : Container) (cs : List Container) :
    ∀ (idx : Int) (acc : String × List String), idx ≤ current →
      cs.get? (current - idx).toNat = some c →
      doActionGo current idx acc cs = (c.name, acc.2 ++ [c.name]) := by
  induction cs with
  | nil => intro idx acc hle hget; simp at hget
  | cons c0 rest ih =>
      intro idx acc hle hget
      by_cases hidx : idx = current
      · have h0 : (current - idx).toNat = 0 := by omega
        rw [h0, List.get?_cons_zero] at hget
        injection hget with hc0
        simp only [doActionGo]
        rw [if_pos hidx, doActionGo_past current rest (idx + 1) _ (by omega), hc0]
      · have hlt : idx < current := lt_of_le_of_ne hle hidx
        have h1 : (current - idx).toNat = (current - (idx + 1)).toNat + 1 := by omega
        rw [h1, List.get?_cons_succ] at hget
        simp only [doActionGo]
        rw [if_neg hidx]
        exact ih (idx + 1) acc (by omega) hget

/-- C1 (amended). The index that `doAction` and the `display` emphasis
test compare against is `self.current` alone, not `top + current`: when
`0 ≤ current < len(containers)`, ACTIVATE dispatches the restart exactly
once, on the container at index `current`, and records that name as the
last action; on an empty list it is a no-op; and a rendered entity gets
the emphasis color pair 7 exactly when its enumeration index equals
`current`. -/
theorem C1_selection_uses_current :
    (∀ (cs : List Container) (curr : Int) (a0 : String) (c : Container),
        0 ≤ curr → cs.get? curr.toNat = some c →
        doAction cs curr a0 = (c.name, [c.name])) ∧
    (∀ (curr : Int) (a0 : String), doAction [] curr a0 = (a0, [])) ∧
    (∀ (idx curr : Int) (hc : String), cellStyle idx curr hc = 7 ↔ idx = curr) := by
  refine ⟨?_, ?_, ?_⟩
  · intro cs curr a0 c h0 hget
    have hget2 : cs.get? (curr - 0).toNat = some c := by simpa using hget
    simpa [doAction] using doActionGo_hit curr c cs 0 (a0, []) h0 hget2
  · intro curr a0; rfl
  · intro idx curr hc
    unfold cellStyle
    split_ifs <;> simp_all

/-- Witness for C1 (amended) at a concrete list and cursor. -/
theorem C1_selection_uses_current_witness :
    doAction [⟨"ida", "alpha", some "healthy"⟩, ⟨"idb", "beta", some "healthy"⟩]
      1 "" = ("beta", ["beta"]) :=
  C1_selection_uses_current.1 _ 1 "" ⟨"idb", "beta", some "healthy"⟩
    (by decide) (by decide)

/-- Counterexample to C1 as stated.  Take two healthy containers
`alpha` (index 0) and `beta` (index 1) and the tick state `top = 1`,
`current = 0`, `bottom = 2`: the claim puts the emphasis styling and the
restart on absolute index `top + current = 1`, i.e. on `beta`, but the
code restarts `alpha` (the container at index `current = 0`), records
`alpha` as the last action, styles index 0 with the emphasis pair 7, and
styles index 1 with the plain pair 2. -/
theorem C1_counterexample :
    (doAction [⟨"ida", "alpha", some "healthy"⟩, ⟨"idb", "beta", some "healthy"⟩]
        0 "").2 = ["alpha"] ∧
    (["alpha"] : List String) ≠ ["beta"] ∧
    cellStyle 0 0 "healthy" = 7 ∧
    cellStyle 1 0 "healthy" = 2 := by
  decide

/-- Counterexample to C3 as stated.  A single container whose inspect
state has no `'Health'` key is not painted at all: the grid loop of
`display` writes no cell for it (and counts it in no footer counter). -/
theorem C3_counterexample :
    (displayGrid [⟨"idc", "ghost", none⟩] 0).cells = [] ∧
    (displayGrid [⟨"idc", "ghost", none⟩] 0).down = 0 ∧
    (displayGrid [⟨"idc", "ghost", none⟩] 0).restart = 0 ∧
    (displayGrid [⟨"idc", "ghost", none⟩] 0).up = 0 := by
  decide

/-- Each container with a health descriptor contributes exactly one cell
to the grid; a container without one contributes nothing. -/
theorem displayGo_cells_length (curr : Int) (cs : List Container) :
    ∀ (idx : Int) (acc : DisplayAcc),
      (displayGo curr idx acc cs).cells.length =
        acc.cells.length + (cs.filter (fun c => c.health.isSome)).length := by
  induction cs with
  | nil => intro idx acc; simp [displayGo]
  | cons c rest ih =>
      intro idx acc
      simp only [displayGo]
      rw [ih]
      cases hc : c.health with
      | none => simp [displayStep, hc, List.filter_cons]
      | some h =>
          simp [displayStep, hc, List.filter_cons]
          omega

/-- C3 (amended). An entity with no health descriptor is dropped from
the grid — `display` paints nothing for it — and the number of painted
cells equals the number of entities that do expose a descriptor. -/
theorem C3_absent_not_rendered (cs : List Container) (curr : Int) :
    (displayGrid cs curr).cells.length =
      (cs.filter (fun c => c.health.isSome)).length := by
  simpa [displayGrid] using displayGo_cells_length curr cs 0 ⟨3, 0, 0, 0, 0, []⟩

/-- C4. The health decision of `display` is a total function of the raw
descriptor: a missing descriptor is the neutral `ABSENT` default,
`"healthy"` maps to `UP`, `"starting"` maps to `RESTARTING`, and every
other string maps to `DOWN`. -/
theorem C4_classify_total :
    classify none = HealthCategory.ABSENT ∧
    classify (some HEALTHY_STATUS) = HealthCategory.UP ∧
    classify (some STARTING_STATUS) = HealthCategory.RESTARTING ∧
    ∀ hc : String, hc ≠ HEALTHY_STATUS → hc ≠ STARTING_STATUS →
      classify (some hc) = HealthCategory.DOWN := by
  refine ⟨rfl, by decide, by decide, ?_⟩
  intro hc h1 h2
  simp [classify, h1, h2]

/-- Witness for C4 at concrete descriptors. -/
theorem C4_classify_total_witness :
    classify (some "dead") = HealthCategory.DOWN ∧
    classify none = HealthCategory.ABSENT :=
  ⟨C4_classify_total.2.2.2 "dead" (by decide) (by decide), C4_classify_total.1⟩

/-! ## Layout injectivity (C8) -/

/-- Counterexample to C8 as stated: with column width `W = 0` the
placement function is not injective — indices 0 and `R = 3` land on the
same slot `(3, 0)`. -/
theorem C8_counterexample : place 0 3 0 = place 3 3 0 ∧ (0 : Nat) ≠ 3 := by
  decide

/-- C8 (amended). For every fixed `rows_per_column` and every positive
`column_width` — in particular for the constants `R = 3`, `W = 22` of
`display` — the placement function is injective over indices. -/
theorem C8_place_injective (rows_per_column column_width : Nat)
    (hW : 0 < column_width) :
    Function.Injective (fun index => place index rows_per_column column_width) := by
  intro i1 i2 h
  simp only [place, Prod.mk.injEq] at h
  obtain ⟨hrow, hcol⟩ := h
  have hm : i1 % rows_per_column = i2 % rows_per_column := by omega
  have hd : i1 / rows_per_column = i2 / rows_per_column :=
    Nat.eq_of_mul_eq_mul_right hW hcol
  calc i1 = rows_per_column * (i1 / rows_per_column) + i1 % rows_per_column :=
        (Nat.div_add_mod i1 rows_per_column).symm
    _ = rows_per_column * (i2 / rows_per_column) + i2 % rows_per_column := by
        rw [hd, hm]
    _ = i2 := Nat.div_add_mod i2 rows_per_column

/-- Witness for C8 (amended) at the code's constants `R = 3`, `W = 22`. -/
theorem C8_place_injective_witness : (7 : Nat) = 7 :=
  C8_place_injective 3 22 (by decide) (by decide)

/-! ## Paging (C9) -/

/-- Counterexample to C9 as stated.  Both inputs satisfy the viewport
invariants (`top ≥ 0`, `0 ≤ current < max_lines`, `top + current <
bottom`, `page = bottom // max_lines`) and land on the last page
(`next_page = page`), so the `min` recompute of `current` runs; yet with
`bottom = 14`, `max_lines = 7` (a full last page, `14 % 7 = 0`) the
recompute sets `current = min(0, -1) = -1`, which is negative, and with
`bottom = 15` and an unaligned `top = 8` the move leaves `top + current
= 15 = bottom`, selecting past the end. -/
theorem C9_counterexample :
    (paging Screen.DOWN ⟨7, 0, 14, 7, 2⟩).current = -1 ∧
    (paging Screen.DOWN ⟨8, 0, 15, 7, 2⟩).top +
      (paging Screen.DOWN ⟨8, 0, 15, 7, 2⟩).current = 15 := by
  decide

/-- C9 (amended). When the destination page equals the last page,
`paging` recomputes `current` as `min(current, bottom fmod max_lines -
1)` — always; and if moreover the last page is not full (`bottom fmod
max_lines > 0`) and `top` is a multiple of `max_lines`, a state
satisfying the viewport invariants is mapped to one with `current ≥ 0`
and `top + current < bottom`. -/
theorem C9_paging_last_page (s : TickState) (d : Int)
    (hm : 0 < s.max_lines) (htop : 0 ≤ s.top) (hcur : 0 ≤ s.current)
    (hlt : s.current < s.max_lines) (hsum : s.top + s.current < s.bottom)
    (hpage : s.page = Int.fdiv s.bottom s.max_lines)
    (halign : s.max_lines ∣ s.top)
    (hrem : 0 < Int.fmod s.bottom s.max_lines)
    (hnext : Int.fdiv (s.top + s.current) s.max_lines + d = s.page) :
    (paging d s).current = min s.current (Int.fmod s.bottom s.max_lines - 1) ∧
    0 ≤ (paging d s).current ∧
    (paging d s).top + (paging d s).current < s.bottom := by
  obtain ⟨q, hq⟩ := halign
  have hcp : Int.fdiv (s.top + s.current) s.max_lines = q := by
    rw [hq, Int.fdiv_eq_ediv _ (le_of_lt hm), add_comm,
      Int.add_mul_ediv_left _ _ (ne_of_gt hm),
      Int.ediv_eq_zero_of_lt hcur hlt, zero_add]
  have hbm : s.max_lines * Int.fdiv s.bottom s.max_lines +
      Int.fmod s.bottom s.max_lines = s.bottom := Int.fdiv_add_fmod _ _
  have hqd : q + d = s.page := by rw [← hcp]; exact hnext
  simp only [paging, Screen.UP, Screen.DOWN]
  rw [hcp, if_pos hqd]
  split_ifs with hd1 hd2 <;> dsimp only
  · exact ⟨rfl, by omega, by omega⟩
  · obtain ⟨hd, hqlt⟩ := hd2
    have hpq : s.page = q + 1 := by omega
    have hb2 : s.max_lines * s.page + Int.fmod s.bottom s.max_lines = s.bottom := by
      rw [hpage]; exact hbm
    have hb3 : s.top + s.max_lines + Int.fmod s.bottom s.max_lines = s.bottom := by
      calc s.top + s.max_lines + Int.fmod s.bottom s.max_lines
          = s.max_lines * q + s.max_lines + Int.fmod s.bottom s.max_lines := by
            rw [hq]
        _ = s.max_lines * (q + 1) + Int.fmod s.bottom s.max_lines := by ring
        _ = s.max_lines * s.page + Int.fmod s.bottom s.max_lines := by rw [hpq]
        _ = s.bottom := hb2
    exact ⟨rfl, by omega, by omega⟩
  · exact ⟨rfl, by omega, by omega⟩

/-- Witness for C9 (amended): `bottom = 10`, `max_lines = 7`, paging
DOWN from `{top: 0, current: 6}` onto the last page. -/
theorem C9_paging_last_page_witness :
    (paging 1 (⟨0, 6, 10, 7, 1⟩ : TickState)).current =
      min (6 : Int) (Int.fmod 10 7 - 1) ∧
    0 ≤ (paging 1 (⟨0, 6, 10, 7, 1⟩ : TickState)).current ∧
    (paging 1 (⟨0, 6, 10, 7, 1⟩ : TickState)).top +
      (paging 1 (⟨0, 6, 10, 7, 1⟩ : TickState)).current < 10 :=
  C9_paging_last_page ⟨0, 6, 10, 7, 1⟩ 1 (by decide) (by decide) (by decide)
    (by decide) (by decide) (by decide) ⟨0, by decide⟩ (by decide) (by decide)

/-- A `displayStep` on a container with a health descriptor: the written
cell sits at the current cursor, and the cursor advances with the
wrap-at-three-rows rule. -/
theorem displayStep_some (curr idx : Int) (acc : DisplayAcc) (c : Container)
    (hcv : String) (hsome : c.health = some hcv) :
    (displayStep curr idx acc c).cells =
      acc.cells ++ [⟨acc.i, acc.j, c.name, cellStyle idx curr hcv⟩] ∧
    (displayStep curr idx acc c).i = (if acc.i + 1 = 6 then 3 else acc.i + 1) ∧
    (displayStep curr idx acc c).j = (if acc.i + 1 = 6 then acc.j + 22 else acc.j) := by
  simp only [displayStep, hsome]
  by_cases h6 : acc.i + 1 = 6 <;> simp [h6]

/-- Stepping the `(i, j)` cursor from the slot of the `k`-th rendered
entity reaches the slot of the `(k+1)`-th: the wrap at `i = 6` is
exactly the wrap of `place` at `k mod 3 = 2`. -/
theorem cursor_step_place (k : Nat) (i j : Int)
    (hi : i = 3 + ((k % 3 : Nat) : Int)) (hj : j = (((k / 3) * 22 : Nat) : Int)) :
    (if i + 1 = 6 then (3 : Int) else i + 1) = 3 + (((k + 1) % 3 : Nat) : Int) ∧
    (if i + 1 = 6 then j + 22 else j) = ((((k + 1) / 3) * 22 : Nat) : Int) := by
  split_ifs with h6 <;> constructor <;> omega

/-- The grid loop of `display` over containers that all expose a health
descriptor, started at the cursor slot of the `k`-th rendered entity,
writes its cells exactly at the slots `place k, place (k+1), ...` of the
layout formula with `R = 3`, `W = 22`. -/
theorem displayGo_place (curr : Int) (cs : List Container) :
    ∀ (idx : Int) (acc : DisplayAcc),
      (∀ c ∈ cs, c.health.isSome = true) →
      acc.i = 3 + ((acc.cells.length % 3 : Nat) : Int) →
      acc.j = (((acc.cells.length / 3) * 22 : Nat) : Int) →
      (displayGo curr idx acc cs).cells.map (fun cl => (cl.row, cl.col)) =
        acc.cells.map (fun cl => (cl.row, cl.col)) ++
          (List.range' acc.cells.length cs.length 1).map
            (fun n => ((((place n 3 22).1 : Nat) : Int), (((place n 3 22).2 : Nat) : Int))) := by
  induction cs with
  | nil => intro idx acc hall hi hj; simp [displayGo]
  | cons c rest ih =>
      intro idx acc hall hi hj
      have hc : c.health.isSome = true := hall c (List.mem_cons_self c rest)
      obtain ⟨hcv, hsome⟩ := Option.isSome_iff_exists.mp hc
      obtain ⟨hcells, hi2, hj2⟩ := displayStep_some curr idx acc c hcv hsome
      have hlen : (displayStep curr idx acc c).cells.length = acc.cells.length + 1 := by
        rw [hcells]; simp
      obtain ⟨hni, hnj⟩ := cursor_step_place acc.cells.length acc.i acc.j hi hj
      simp only [displayGo]
      rw [ih (idx + 1) (displayStep curr idx acc c)
          (fun c2 h2 => hall c2 (List.mem_cons_of_mem c h2))
          (by rw [hlen, hi2]; exact hni) (by rw [hlen, hj2]; exact hnj)]
      rw [hcells]
      simp only [List.map_append, List.map_cons, List.map_nil, List.length_append,
        List.length_cons, List.length_nil, List.length_singleton]
      rw [List.range'_succ, List.map_cons]
      rw [hi, hj, List.append_assoc]
      simp only [List.cons_append, List.nil_append, place]
      push_cast
      ring_nf

/-- The cells painted by `display` for a list of containers that all
expose a health descriptor sit exactly at `place 0, place 1, ...` with
the constants `R = 3`, `W = 22` of the source. -/
theorem displayGrid_matches_place (cs : List Container) (curr : Int)
    (hall : ∀ c ∈ cs, c.health.isSome = true) :
    (displayGrid cs curr).cells.map (fun cl => (cl.row, cl.col)) =
      (List.range cs.length).map
        (fun n => ((((place n 3 22).1 : Nat) : Int), (((place n 3 22).2 : Nat) : Int))) := by
  rw [List.range_eq_range']
  simpa [displayGrid] using
    displayGo_place curr cs 0 ⟨3, 0, 0, 0, 0, []⟩ hall (by simp) (by simp)

end DockerDashboard
